import Mathlib

/-!
Verification of the AES cipher core of this repository against its
natural-language specification.  The cipher module itself is not present in
the source tree (only its test suite `test/test_aes.py` is), so every
definition below is modelled from the specification's description of the
core (key schedule, block transform, ECB/CBC/CTR/GCM modes, GHASH, padding
schemes), and cross-checked against the golden vectors recorded in the
test suite.  Bytes are modelled as `Nat` values below 256 and byte strings
as `List Nat`.
-/

namespace AesCore

/-- Modelled from the spec: doubling in GF(2^8), the primitive used both for
`gf_mul` (MixColumns) and for generating the round-constant sequence by
"repeated doubling in GF(2^8) starting from 1" (spec 4.1). -/
def xtime (a : Nat) : Nat := (a * 2) ^^^ (if a.testBit 7 then 283 else 0)

/-- Modelled from the spec: shift-and-add byte multiplication in GF(2^8)
(spec 2, "byte multiplication in GF(2^8) (for MixColumns)"), iterated over
the 8 bits of the first factor. -/
def gfMulAux : Nat → Nat → Nat → Nat
  | 0, _, _ => 0
  | n + 1, a, b => (if a % 2 = 1 then b else 0) ^^^ gfMulAux n (a / 2) (xtime b)

/-- Modelled from the spec: byte multiplication in GF(2^8) modulo the
Rijndael polynomial (spec 2). -/
def gf_mul (a b : Nat) : Nat := gfMulAux 8 a b

/-- Modelled from the spec: the forward S-box byte-substitution table
(spec 2, "Substitution tables - forward and inverse S-box"). -/
def SBOX : List Nat := [
  0x63, 0x7c, 0x77, 0x7b, 0xf2, 0x6b, 0x6f, 0xc5, 0x30, 0x01, 0x67, 0x2b, 0xfe, 0xd7, 0xab, 0x76,
  0xca, 0x82, 0xc9, 0x7d, 0xfa, 0x59, 0x47, 0xf0, 0xad, 0xd4, 0xa2, 0xaf, 0x9c, 0xa4, 0x72, 0xc0,
  0xb7, 0xfd, 0x93, 0x26, 0x36, 0x3f, 0xf7, 0xcc, 0x34, 0xa5, 0xe5, 0xf1, 0x71, 0xd8, 0x31, 0x15,
  0x04, 0xc7, 0x23, 0xc3, 0x18, 0x96, 0x05, 0x9a, 0x07, 0x12, 0x80, 0xe2, 0xeb, 0x27, 0xb2, 0x75,
  0x09, 0x83, 0x2c, 0x1a, 0x1b, 0x6e, 0x5a, 0xa0, 0x52, 0x3b, 0xd6, 0xb3, 0x29, 0xe3, 0x2f, 0x84,
  0x53, 0xd1, 0x00, 0xed, 0x20, 0xfc, 0xb1, 0x5b, 0x6a, 0xcb, 0xbe, 0x39, 0x4a, 0x4c, 0x58, 0xcf,
  0xd0, 0xef, 0xaa, 0xfb, 0x43, 0x4d, 0x33, 0x85, 0x45, 0xf9, 0x02, 0x7f, 0x50, 0x3c, 0x9f, 0xa8,
  0x51, 0xa3, 0x40, 0x8f, 0x92, 0x9d, 0x38, 0xf5, 0xbc, 0xb6, 0xda, 0x21, 0x10, 0xff, 0xf3, 0xd2,
  0xcd, 0x0c, 0x13, 0xec, 0x5f, 0x97, 0x44, 0x17, 0xc4, 0xa7, 0x7e, 0x3d, 0x64, 0x5d, 0x19, 0x73,
  0x60, 0x81, 0x4f, 0xdc, 0x22, 0x2a, 0x90, 0x88, 0x46, 0xee, 0xb8, 0x14, 0xde, 0x5e, 0x0b, 0xdb,
  0xe0, 0x32, 0x3a, 0x0a, 0x49, 0x06, 0x24, 0x5c, 0xc2, 0xd3, 0xac, 0x62, 0x91, 0x95, 0xe4, 0x79,
  0xe7, 0xc8, 0x37, 0x6d, 0x8d, 0xd5, 0x4e, 0xa9, 0x6c, 0x56, 0xf4, 0xea, 0x65, 0x7a, 0xae, 0x08,
  0xba, 0x78, 0x25, 0x2e, 0x1c, 0xa6, 0xb4, 0xc6, 0xe8, 0xdd, 0x74, 0x1f, 0x4b, 0xbd, 0x8b, 0x8a,
  0x70, 0x3e, 0xb5, 0x66, 0x48, 0x03, 0xf6, 0x0e, 0x61, 0x35, 0x57, 0xb9, 0x86, 0xc1, 0x1d, 0x9e,
  0xe1, 0xf8, 0x98, 0x11, 0x69, 0xd9, 0x8e, 0x94, 0x9b, 0x1e, 0x87, 0xe9, 0xce, 0x55, 0x28, 0xdf,
  0x8c, 0xa1, 0x89, 0x0d, 0xbf, 0xe6, 0x42, 0x68, 0x41, 0x99, 0x2d, 0x0f, 0xb0, 0x54, 0xbb, 0x16]

/-- Modelled from the spec: the inverse S-box byte-substitution table
(spec 2). -/
def SBOX_INV : List Nat := [
  0x52, 0x09, 0x6a, 0xd5, 0x30, 0x36, 0xa5, 0x38, 0xbf, 0x40, 0xa3, 0x9e, 0x81, 0xf3, 0xd7, 0xfb,
  0x7c, 0xe3, 0x39, 0x82, 0x9b, 0x2f, 0xff, 0x87, 0x34, 0x8e, 0x43, 0x44, 0xc4, 0xde, 0xe9, 0xcb,
  0x54, 0x7b, 0x94, 0x32, 0xa6, 0xc2, 0x23, 0x3d, 0xee, 0x4c, 0x95, 0x0b, 0x42, 0xfa, 0xc3, 0x4e,
  0x08, 0x2e, 0xa1, 0x66, 0x28, 0xd9, 0x24, 0xb2, 0x76, 0x5b, 0xa2, 0x49, 0x6d, 0x8b, 0xd1, 0x25,
  0x72, 0xf8, 0xf6, 0x64, 0x86, 0x68, 0x98, 0x16, 0xd4, 0xa4, 0x5c, 0xcc, 0x5d, 0x65, 0xb6, 0x92,
  0x6c, 0x70, 0x48, 0x50, 0xfd, 0xed, 0xb9, 0xda, 0x5e, 0x15, 0x46, 0x57, 0xa7, 0x8d, 0x9d, 0x84,
  0x90, 0xd8, 0xab, 0x00, 0x8c, 0xbc, 0xd3, 0x0a, 0xf7, 0xe4, 0x58, 0x05, 0xb8, 0xb3, 0x45, 0x06,
  0xd0, 0x2c, 0x1e, 0x8f, 0xca, 0x3f, 0x0f, 0x02, 0xc1, 0xaf, 0xbd, 0x03, 0x01, 0x13, 0x8a, 0x6b,
  0x3a, 0x91, 0x11, 0x41, 0x4f, 0x67, 0xdc, 0xea, 0x97, 0xf2, 0xcf, 0xce, 0xf0, 0xb4, 0xe6, 0x73,
  0x96, 0xac, 0x74, 0x22, 0xe7, 0xad, 0x35, 0x85, 0xe2, 0xf9, 0x37, 0xe8, 0x1c, 0x75, 0xdf, 0x6e,
  0x47, 0xf1, 0x1a, 0x71, 0x1d, 0x29, 0xc5, 0x89, 0x6f, 0xb7, 0x62, 0x0e, 0xaa, 0x18, 0xbe, 0x1b,
  0xfc, 0x56, 0x3e, 0x4b, 0xc6, 0xd2, 0x79, 0x20, 0x9a, 0xdb, 0xc0, 0xfe, 0x78, 0xcd, 0x5a, 0xf4,
  0x1f, 0xdd, 0xa8, 0x33, 0x88, 0x07, 0xc7, 0x31, 0xb1, 0x12, 0x10, 0x59, 0x27, 0x80, 0xec, 0x5f,
  0x60, 0x51, 0x7f, 0xa9, 0x19, 0xb5, 0x4a, 0x0d, 0x2d, 0xe5, 0x7a, 0x9f, 0x93, 0xc9, 0x9c, 0xef,
  0xa0, 0xe0, 0x3b, 0x4d, 0xae, 0x2a, 0xf5, 0xb0, 0xc8, 0xeb, 0xbb, 0x3c, 0x83, 0x53, 0x99, 0x61,
  0x17, 0x2b, 0x04, 0x7e, 0xba, 0x77, 0xd6, 0x26, 0xe1, 0x69, 0x14, 0x63, 0x55, 0x21, 0x0c, 0x7d]

/-- Single byte substitution through the forward S-box. -/
def sbox (b : Nat) : Nat := SBOX.getD b 0

/-- Single byte substitution through the inverse S-box. -/
def sboxInv (b : Nat) : Nat := SBOX_INV.getD b 0

/-- The block size constant exposed by the module (spec 6). -/
def BLOCK_SIZE_BYTES : Nat := 16

/-- Byte-wise XOR of two byte strings, truncated to the shorter one. -/
def xorBytes (a b : List Nat) : List Nat := List.zipWith (· ^^^ ·) a b

/-- Modelled from the spec: byte substitution of a whole state through the
forward S-box (spec 4.2). -/
def sub_bytes (s : List Nat) : List Nat := s.map sbox

/-- Modelled from the spec: byte substitution through the inverse S-box
(spec 4.2). -/
def sub_bytes_inv (s : List Nat) : List Nat := s.map sboxInv

/-- Modelled from the spec: row `r` of the 4x4 column-major state rotated
left by `r` positions (spec 4.2).  On the flat 16-byte state this is a fixed
permutation; inputs that are not exactly 16 bytes are returned unchanged. -/
def shift_rows (s : List Nat) : List Nat :=
  match s with
  | [b0, b1, b2, b3, b4, b5, b6, b7, b8, b9, b10, b11, b12, b13, b14, b15] =>
      [b0, b5, b10, b15, b4, b9, b14, b3, b8, b13, b2, b7, b12, b1, b6, b11]
  | t => t

/-- Modelled from the spec: the inverse row rotation (spec 4.2). -/
def shift_rows_inv (s : List Nat) : List Nat :=
  match s with
  | [b0, b1, b2, b3, b4, b5, b6, b7, b8, b9, b10, b11, b12, b13, b14, b15] =>
      [b0, b13, b10, b7, b4, b1, b14, b11, b8, b5, b2, b15, b12, b9, b6, b3]
  | t => t

/-- Modelled from the spec: multiply each 4-byte column of the column-major
state by the fixed MixColumns matrix in GF(2^8) (spec 4.2).  Inputs that are
not exactly 16 bytes are returned unchanged. -/
def mix_columns (s : List Nat) : List Nat :=
  match s with
  | [b0, b1, b2, b3, b4, b5, b6, b7, b8, b9, b10, b11, b12, b13, b14, b15] =>
      [gf_mul 2 b0 ^^^ (gf_mul 3 b1 ^^^ (b2 ^^^ b3)),
       b0 ^^^ (gf_mul 2 b1 ^^^ (gf_mul 3 b2 ^^^ b3)),
       b0 ^^^ (b1 ^^^ (gf_mul 2 b2 ^^^ gf_mul 3 b3)),
       gf_mul 3 b0 ^^^ (b1 ^^^ (b2 ^^^ gf_mul 2 b3)),
       gf_mul 2 b4 ^^^ (gf_mul 3 b5 ^^^ (b6 ^^^ b7)),
       b4 ^^^ (gf_mul 2 b5 ^^^ (gf_mul 3 b6 ^^^ b7)),
       b4 ^^^ (b5 ^^^ (gf_mul 2 b6 ^^^ gf_mul 3 b7)),
       gf_mul 3 b4 ^^^ (b5 ^^^ (b6 ^^^ gf_mul 2 b7)),
       gf_mul 2 b8 ^^^ (gf_mul 3 b9 ^^^ (b10 ^^^ b11)),
       b8 ^^^ (gf_mul 2 b9 ^^^ (gf_mul 3 b10 ^^^ b11)),
       b8 ^^^ (b9 ^^^ (gf_mul 2 b10 ^^^ gf_mul 3 b11)),
       gf_mul 3 b8 ^^^ (b9 ^^^ (b10 ^^^ gf_mul 2 b11)),
       gf_mul 2 b12 ^^^ (gf_mul 3 b13 ^^^ (b14 ^^^ b15)),
       b12 ^^^ (gf_mul 2 b13 ^^^ (gf_mul 3 b14 ^^^ b15)),
       b12 ^^^ (b13 ^^^ (gf_mul 2 b14 ^^^ gf_mul 3 b15)),
       gf_mul 3 b12 ^^^ (b13 ^^^ (b14 ^^^ gf_mul 2 b15))]
  | t => t

/-- Modelled from the spec: inverse column mixing with the inverse
MixColumns matrix in GF(2^8) (spec 4.2). -/
def mix_columns_inv (s : List Nat) : List Nat :=
  match s with
  | [b0, b1, b2, b3, b4, b5, b6, b7, b8, b9, b10, b11, b12, b13, b14, b15] =>
      [gf_mul 14 b0 ^^^ (gf_mul 11 b1 ^^^ (gf_mul 13 b2 ^^^ gf_mul 9 b3)),
       gf_mul 9 b0 ^^^ (gf_mul 14 b1 ^^^ (gf_mul 11 b2 ^^^ gf_mul 13 b3)),
       gf_mul 13 b0 ^^^ (gf_mul 9 b1 ^^^ (gf_mul 14 b2 ^^^ gf_mul 11 b3)),
       gf_mul 11 b0 ^^^ (gf_mul 13 b1 ^^^ (gf_mul 9 b2 ^^^ gf_mul 14 b3)),
       gf_mul 14 b4 ^^^ (gf_mul 11 b5 ^^^ (gf_mul 13 b6 ^^^ gf_mul 9 b7)),
       gf_mul 9 b4 ^^^ (gf_mul 14 b5 ^^^ (gf_mul 11 b6 ^^^ gf_mul 13 b7)),
       gf_mul 13 b4 ^^^ (gf_mul 9 b5 ^^^ (gf_mul 14 b6 ^^^ gf_mul 11 b7)),
       gf_mul 11 b4 ^^^ (gf_mul 13 b5 ^^^ (gf_mul 9 b6 ^^^ gf_mul 14 b7)),
       gf_mul 14 b8 ^^^ (gf_mul 11 b9 ^^^ (gf_mul 13 b10 ^^^ gf_mul 9 b11)),
       gf_mul 9 b8 ^^^ (gf_mul 14 b9 ^^^ (gf_mul 11 b10 ^^^ gf_mul 13 b11)),
       gf_mul 13 b8 ^^^ (gf_mul 9 b9 ^^^ (gf_mul 14 b10 ^^^ gf_mul 11 b11)),
       gf_mul 11 b8 ^^^ (gf_mul 13 b9 ^^^ (gf_mul 9 b10 ^^^ gf_mul 14 b11)),
       gf_mul 14 b12 ^^^ (gf_mul 11 b13 ^^^ (gf_mul 13 b14 ^^^ gf_mul 9 b15)),
       gf_mul 9 b12 ^^^ (gf_mul 14 b13 ^^^ (gf_mul 11 b14 ^^^ gf_mul 13 b15)),
       gf_mul 13 b12 ^^^ (gf_mul 9 b13 ^^^ (gf_mul 14 b14 ^^^ gf_mul 11 b15)),
       gf_mul 11 b12 ^^^ (gf_mul 13 b13 ^^^ (gf_mul 9 b14 ^^^ gf_mul 14 b15))]
  | t => t

/-- Modelled from the spec: the round-constant sequence, "generated by
repeated doubling in GF(2^8) starting from 1" (spec 4.1). -/
def rcon : Nat → Nat
  | 0 => 1
  | n + 1 => xtime (rcon n)

/-- Rotate a 4-byte word left by one byte. -/
def rotWord : List Nat → List Nat
  | [] => []
  | b :: rest => rest ++ [b]

/-- Split a byte string into `n` consecutive 4-byte words. -/
def toWords : Nat → List Nat → List (List Nat)
  | 0, _ => []
  | n + 1, l => l.take 4 :: toWords n (l.drop 4)

/-- Modelled from the spec (4.1): the next expanded-key word given the
reversed accumulator `revAcc` (most recent word first).  A word at a round
boundary is the previous word rotated, substituted through the forward S-box
and XORed with the round constant, then XORed with the word `Nk` positions
back; every other word is the XOR of the previous word with the word `Nk`
positions back. -/
def nextWord (nk : Nat) (revAcc : List (List Nat)) : List Nat :=
  if revAcc.length % nk = 0 then
    xorBytes (revAcc.getD (nk - 1) [])
      (xorBytes (sub_bytes (rotWord (revAcc.headD [])))
        [rcon (revAcc.length / nk - 1), 0, 0, 0])
  else
    xorBytes (revAcc.getD (nk - 1) []) (revAcc.headD [])

/-- Modelled from the spec (4.1): generate `fuel` further expanded-key words
on top of the reversed accumulator. -/
def expandWords (nk : Nat) : Nat → List (List Nat) → List (List Nat)
  | 0, revAcc => revAcc
  | fuel + 1, revAcc => expandWords nk fuel (nextWord nk revAcc :: revAcc)

/-- Modelled from the spec (4.1): expand a 16-, 24- or 32-byte key into
`(rounds + 1) * 16` bytes of round-key material, where `rounds` is 10, 12 or
14 respectively (`Nk + 6` with `Nk` the key length in 32-bit words). -/
def key_expansion (key : List Nat) : List Nat :=
  let nk := key.length / 4
  ((expandWords nk (3 * nk + 28) (toWords nk key).reverse).reverse).flatten

/-- Split a byte string into `n` consecutive 16-byte blocks. -/
def toBlocks : Nat → List Nat → List (List Nat)
  | 0, _ => []
  | n + 1, l => l.take 16 :: toBlocks n (l.drop 16)

/-- Modelled from the spec (4.2): the encryption rounds after the initial
key addition.  Each round applies byte substitution, row rotation, column
mixing and round-key addition; the final round omits column mixing. -/
def encRounds : List (List Nat) → List Nat → List Nat
  | [], s => s
  | [k], s => xorBytes (shift_rows (sub_bytes s)) k
  | k :: k2 :: rest, s => encRounds (k2 :: rest) (xorBytes (mix_columns (shift_rows (sub_bytes s))) k)

/-- Modelled from the spec (4.2): the inverse of `encRounds`, consuming the
same round keys in reverse order with the inverse transformations. -/
def decRounds : List (List Nat) → List Nat → List Nat
  | [], s => s
  | [k], s => sub_bytes_inv (shift_rows_inv (xorBytes s k))
  | k :: k2 :: rest, s =>
      sub_bytes_inv (shift_rows_inv (mix_columns_inv (xorBytes (decRounds (k2 :: rest) s) k)))

/-- Modelled from the spec (4.2): single 16-byte block encryption.  The
block is XORed with round key 0 and then run through the rounds. -/
def encrypt_block (data ek : List Nat) : List Nat :=
  match toBlocks (ek.length / 16) ek with
  | [] => data
  | k0 :: rest => encRounds rest (xorBytes data k0)

/-- Modelled from the spec (4.2): single 16-byte block decryption, the exact
algebraic inverse of `encrypt_block`. -/
def decrypt_block (data ek : List Nat) : List Nat :=
  match toBlocks (ek.length / 16) ek with
  | [] => data
  | k0 :: rest => xorBytes (decRounds rest data) k0

/-- Modelled from the spec (7): the error taxonomy of the cipher core. -/
inductive AesError where
  | invalidKeyLength
  | invalidBlockLength
  | invalidDataLength
  | invalidSchemeError
  | invalidInputError
  | authenticationError
  | malformedInputError
deriving DecidableEq, Repr

/-- Modelled from the spec (4.6): increment a counter block treated as a
big-endian 128-bit integer with wraparound; helper working on the reversed
(little-endian-first) byte list. -/
def incRev : List Nat → List Nat
  | [] => []
  | b :: rest => if b = 255 then 0 :: incRev rest else (b + 1) :: rest

/-- Modelled from the spec (4.6): increment a big-endian counter block. -/
def inc (c : List Nat) : List Nat := (incRev c.reverse).reverse

/-- Number of 16-byte segments needed to cover `l` bytes. -/
def numBlocks (l : Nat) : Nat := (l + 15) / 16

/-- Modelled from the spec (4.6): the CTR keystream loop.  For each 16-byte
segment the current counter block is encrypted to produce a keystream block
which is XORed with the segment (truncated to the remaining length), and the
counter is incremented. -/
def ctrCore (ek : List Nat) : Nat → List Nat → List Nat → List Nat
  | 0, _, _ => []
  | n + 1, ctr, data =>
      xorBytes (data.take 16) (encrypt_block ctr ek) ++ ctrCore ek n (inc ctr) (data.drop 16)

/-- Modelled from the spec (4.6): CTR encryption of arbitrary-length data;
the counter's initial value is the supplied IV. -/
def ctr_encrypt (data key iv : List Nat) : List Nat :=
  ctrCore (key_expansion key) (numBlocks data.length) iv data

/-- Modelled from the spec (4.6): CTR decryption is the identical operation
to CTR encryption. -/
def ctr_decrypt (data key iv : List Nat) : List Nat := ctr_encrypt data key iv

/-- ECB block loop: each 16-byte block transformed independently. -/
def ecbEncCore (ek : List Nat) : Nat → List Nat → List Nat
  | 0, _ => []
  | n + 1, data => encrypt_block (data.take 16) ek ++ ecbEncCore ek n (data.drop 16)

/-- ECB decryption block loop. -/
def ecbDecCore (ek : List Nat) : Nat → List Nat → List Nat
  | 0, _ => []
  | n + 1, data => decrypt_block (data.take 16) ek ++ ecbDecCore ek n (data.drop 16)

/-- Modelled from the spec (4.4): ECB encryption.  Fails with the
invalid-data-length error when the input is not a multiple of 16 bytes; the
IV argument is accepted and ignored ("no chaining, no IV"). -/
def ecb_encrypt (data key _iv : List Nat) : Except AesError (List Nat) :=
  if data.length % 16 = 0 then
    Except.ok (ecbEncCore (key_expansion key) (data.length / 16) data)
  else Except.error AesError.invalidDataLength

/-- Modelled from the spec (4.4): ECB decryption. -/
def ecb_decrypt (data key _iv : List Nat) : Except AesError (List Nat) :=
  if data.length % 16 = 0 then
    Except.ok (ecbDecCore (key_expansion key) (data.length / 16) data)
  else Except.error AesError.invalidDataLength

/-- CBC encryption block loop: each plaintext block is XORed with the
previous ciphertext block (the IV for the first) before the block
transform. -/
def cbcEncCore (ek : List Nat) : Nat → List Nat → List Nat → List Nat
  | 0, _, _ => []
  | n + 1, prev, data =>
      let ct := encrypt_block (xorBytes (data.take 16) prev) ek
      ct ++ cbcEncCore ek n ct (data.drop 16)

/-- CBC decryption block loop: the block transform's inverse followed by XOR
with the previous ciphertext block. -/
def cbcDecCore (ek : List Nat) : Nat → List Nat → List Nat → List Nat
  | 0, _, _ => []
  | n + 1, prev, data =>
      xorBytes (decrypt_block (data.take 16) ek) prev ++ cbcDecCore ek n (data.take 16) (data.drop 16)

/-- Modelled from the spec (4.5): CBC encryption.  Requires the input length
to be a multiple of 16 and a 16-byte IV. -/
def cbc_encrypt (data key iv : List Nat) : Except AesError (List Nat) :=
  if data.length % 16 = 0 then
    if iv.length = 16 then
      Except.ok (cbcEncCore (key_expansion key) (data.length / 16) iv data)
    else Except.error AesError.invalidBlockLength
  else Except.error AesError.invalidDataLength

/-- Modelled from the spec (4.5): CBC decryption. -/
def cbc_decrypt (data key iv : List Nat) : Except AesError (List Nat) :=
  if data.length % 16 = 0 then
    if iv.length = 16 then
      Except.ok (cbcDecCore (key_expansion key) (data.length / 16) iv data)
    else Except.error AesError.invalidBlockLength
  else Except.error AesError.invalidDataLength

/-- Big-endian byte decomposition, least significant byte first. -/
def natToBytesRev : Nat → Nat → List Nat
  | 0, _ => []
  | k + 1, n => (n % 256) :: natToBytesRev k (n / 256)

/-- The `k`-byte big-endian encoding of `n`. -/
def natToBytesBE (k n : Nat) : List Nat := (natToBytesRev k n).reverse

/-- Big-endian interpretation of a byte string as a natural number. -/
def bytesToNat (l : List Nat) : Nat := l.foldl (fun acc b => acc * 256 + b) 0

/-- Modelled from the spec (4.7): one shift step of the bit-reflected
carry-less multiplication in GF(2^128): halve `v`, folding in the standard
reduction polynomial when a bit falls off. -/
def gf128Step (v : Nat) : Nat :=
  if v % 2 = 1 then (v / 2) ^^^ (0xe1 <<< 120) else v / 2

/-- Modelled from the spec (2, 4.7): bit-reflected carry-less multiplication
in GF(2^128), iterating over the bits of `x` from the most significant
down. -/
def gf128Aux : Nat → Nat → Nat → Nat → Nat
  | 0, _, _, z => z
  | i + 1, x, v, z => gf128Aux i x (gf128Step v) (if x.testBit i then z ^^^ v else z)

/-- Modelled from the spec (4.7): multiplication in GF(2^128) with the
standard GCM bit ordering. -/
def gf128Mul (x y : Nat) : Nat := gf128Aux 128 x y 0

/-- GHASH block loop: fold each 128-bit block into the accumulator via XOR
followed by multiplication by the hash subkey. -/
def ghashCore (h : Nat) : Nat → Nat → List Nat → Nat
  | 0, acc, _ => acc
  | n + 1, acc, data => ghashCore h n (gf128Mul (acc ^^^ bytesToNat (data.take 16)) h) (data.drop 16)

/-- Modelled from the spec (4.7): GHASH of a byte string (already padded to
a 16-byte multiple by the caller) under hash subkey `h`. -/
def ghash (h data : List Nat) : List Nat :=
  natToBytesBE 16 (ghashCore (bytesToNat h) (numBlocks data.length) 0 data)

/-- Zero-pad a byte string up to the next 16-byte multiple. -/
def zeroPad16 (l : List Nat) : List Nat :=
  l ++ List.replicate ((16 - l.length % 16) % 16) 0

/-- Modelled from the spec (4.7): the GCM authentication tag for ciphertext
`ct` and associated data `aad`: GHASH (keyed by the encryption of the
all-zero block) of the padded associated data, the padded ciphertext and the
16-byte block holding both bit-lengths, XORed with the encryption of the
initial counter block `j0`. -/
def gcmTag (ct aad ek j0 : List Nat) : List Nat :=
  xorBytes
    (ghash (encrypt_block (List.replicate 16 0) ek)
      (zeroPad16 aad ++ zeroPad16 ct ++ natToBytesBE 8 (aad.length * 8) ++ natToBytesBE 8 (ct.length * 8)))
    (encrypt_block j0 ek)

/-- Modelled from the spec (4.7): GCM encryption with a 12-byte nonce.  The
initial counter block is the nonce with its low 32 bits set to 1; the
plaintext is CTR-encrypted starting from the incremented counter, and the
tag is computed over the resulting ciphertext.  Only the 12-byte nonce path
is required by the spec; other nonce lengths are rejected. -/
def gcm_encrypt_and_tag (p key nonce aad : List Nat) : Except AesError (List Nat × List Nat) :=
  if nonce.length = 12 then
    Except.ok
      (ctrCore (key_expansion key) (numBlocks p.length) (inc (nonce ++ [0, 0, 0, 1])) p,
       gcmTag (ctrCore (key_expansion key) (numBlocks p.length) (inc (nonce ++ [0, 0, 0, 1])) p)
         aad (key_expansion key) (nonce ++ [0, 0, 0, 1]))
  else Except.error AesError.invalidBlockLength

/-- Modelled from the spec (4.7): GCM decryption.  The tag is recomputed
over the supplied ciphertext and associated data and compared byte-for-byte
with the supplied tag strictly before any plaintext is produced; a mismatch
fails with the authentication error. -/
def gcm_decrypt_and_verify (ct key tag nonce aad : List Nat) : Except AesError (List Nat) :=
  if nonce.length = 12 then
    if tag = gcmTag ct aad (key_expansion key) (nonce ++ [0, 0, 0, 1]) then
      Except.ok (ctrCore (key_expansion key) (numBlocks ct.length) (inc (nonce ++ [0, 0, 0, 1])) ct)
    else Except.error AesError.authenticationError
  else Except.error AesError.invalidBlockLength

/-- The recognized padding scheme identifiers (spec 4.3). -/
def PADDING_SCHEMES : List String := ["pkcs7", "iso7816", "whitespace", "zero"]

/-- Modelled from the spec (4.3): pad a final partial block up to 16 bytes.
A 16-byte input is returned unchanged by every scheme.  Fails with the
invalid-scheme error on an unrecognized scheme name and with the
invalid-input error when the input exceeds 16 bytes. -/
def pad_block (data : List Nat) (scheme : String) : Except AesError (List Nat) :=
  if scheme ∈ PADDING_SCHEMES then
    if data.length ≤ 16 then
      Except.ok
        (if scheme = "pkcs7" then data ++ List.replicate (16 - data.length) (16 - data.length)
         else if scheme = "iso7816" then
           if data.length = 16 then data
           else data ++ 0x80 :: List.replicate (16 - data.length - 1) 0
         else if scheme = "whitespace" then data ++ List.replicate (16 - data.length) 0x20
         else data ++ List.replicate (16 - data.length) 0)
    else Except.error AesError.invalidInputError
  else Except.error AesError.invalidSchemeError

/-! ### XOR and GF(2^8) algebra -/

instance : Std.Associative (fun a b : Nat => a ^^^ b) := ⟨Nat.xor_assoc⟩

instance : Std.Commutative (fun a b : Nat => a ^^^ b) := ⟨Nat.xor_comm⟩

theorem xor_xor_cancel (a b : Nat) : a ^^^ b ^^^ b = a := Nat.xor_cancel_right b a

theorem shiftLeft_xor (a b n : Nat) : (a ^^^ b) <<< n = a <<< n ^^^ b <<< n := by
  apply Nat.eq_of_testBit_eq
  intro i
  simp [Nat.testBit_shiftLeft, Nat.testBit_xor, Bool.and_xor_distrib_left]

theorem mul_two_xor (a b : Nat) : (a ^^^ b) * 2 = a * 2 ^^^ b * 2 := by
  have h : ∀ x : Nat, x * 2 = x <<< 1 := by
    intro x
    rw [Nat.shiftLeft_eq, pow_one]
  rw [h, h, h, shiftLeft_xor]

theorem ite_xor_ite (x y : Bool) (v : Nat) :
    (if (x ^^ y) = true then v else 0) =
      (if x = true then v else 0) ^^^ (if y = true then v else 0) := by
  cases x <;> cases y <;> simp

theorem xor_swap4 (p q r s : Nat) : (p ^^^ q) ^^^ (r ^^^ s) = (p ^^^ r) ^^^ (q ^^^ s) := by
  ac_rfl

theorem xtime_xor (a b : Nat) : xtime (a ^^^ b) = xtime a ^^^ xtime b := by
  unfold xtime
  rw [mul_two_xor, Nat.testBit_xor, ite_xor_ite, xor_swap4]

set_option maxRecDepth 2000 in
theorem xtime_lt : ∀ a < 256, xtime a < 256 := by decide

theorem gfMulAux_xor (n : Nat) : ∀ (a x y : Nat),
    gfMulAux n a (x ^^^ y) = gfMulAux n a x ^^^ gfMulAux n a y := by
  induction n with
  | zero => intro a x y; simp [gfMulAux]
  | succ n ih =>
      intro a x y
      simp only [gfMulAux, xtime_xor, ih]
      rw [← xor_swap4]
      by_cases h : a % 2 = 1 <;> simp [h]

theorem gf_mul_xor (a x y : Nat) : gf_mul a (x ^^^ y) = gf_mul a x ^^^ gf_mul a y :=
  gfMulAux_xor 8 a x y

theorem xor_lt_256 {x y : Nat} (hx : x < 256) (hy : y < 256) : x ^^^ y < 256 := by
  have h : (256 : Nat) = 2 ^ 8 := rfl
  rw [h] at hx hy ⊢
  exact Nat.xor_lt_two_pow hx hy

theorem gfMulAux_lt (n : Nat) : ∀ (a b : Nat), b < 256 → gfMulAux n a b < 256 := by
  induction n with
  | zero => intro a b _; simp [gfMulAux]
  | succ n ih =>
      intro a b hb
      simp only [gfMulAux]
      apply xor_lt_256
      · split <;> omega
      · exact ih (a / 2) (xtime b) (xtime_lt b hb)

theorem gf_mul_lt (a : Nat) {b : Nat} (hb : b < 256) : gf_mul a b < 256 :=
  gfMulAux_lt 8 a b hb

theorem xor4_lt {a b c d : Nat} (ha : a < 256) (hb : b < 256) (hc : c < 256) (hd : d < 256) :
    a ^^^ (b ^^^ (c ^^^ d)) < 256 :=
  xor_lt_256 ha (xor_lt_256 hb (xor_lt_256 hc hd))

/-! ### byte-string XOR -/

theorem length_xorBytes (a b : List Nat) : (xorBytes a b).length = min a.length b.length :=
  List.length_zipWith ..

theorem xorBytes_cancel : ∀ (a b : List Nat), a.length ≤ b.length →
    xorBytes (xorBytes a b) b = a := by
  intro a
  induction a with
  | nil => intro b _; simp [xorBytes]
  | cons x t ih =>
      intro b hb
      cases b with
      | nil => simp at hb
      | cons y u =>
          simp only [xorBytes, List.zipWith_cons_cons] at *
          rw [xor_xor_cancel, ih u (by simpa using hb)]

theorem mem_xorBytes_lt : ∀ (a b : List Nat), (∀ m ∈ a, m < 256) → (∀ m ∈ b, m < 256) →
    ∀ m ∈ xorBytes a b, m < 256 := by
  intro a
  induction a with
  | nil => intro b _ _ m hm; simp [xorBytes] at hm
  | cons x t ih =>
      intro b ha hb m hm
      cases b with
      | nil => simp [xorBytes] at hm
      | cons y u =>
          simp only [xorBytes, List.zipWith_cons_cons, List.mem_cons] at hm
          rcases hm with rfl | hm
          · exact xor_lt_256 (ha x (by simp)) (hb y (by simp))
          · exact ih u (fun m hm => ha m (by simp [hm])) (fun m hm => hb m (by simp [hm])) m hm

set_option maxRecDepth 8000 in
theorem gfDiag0 : ∀ x < 256, gf_mul 14 (gf_mul 2 x) ^^^ (gf_mul 11 x ^^^ (gf_mul 13 x ^^^ gf_mul 9 (gf_mul 3 x))) = x := by decide

set_option maxRecDepth 8000 in
theorem gfDiag1 : ∀ x < 256, gf_mul 14 (gf_mul 3 x) ^^^ (gf_mul 11 (gf_mul 2 x) ^^^ (gf_mul 13 x ^^^ gf_mul 9 x)) = 0 := by decide

set_option maxRecDepth 8000 in
theorem gfDiag2 : ∀ x < 256, gf_mul 14 x ^^^ (gf_mul 11 (gf_mul 3 x) ^^^ (gf_mul 13 (gf_mul 2 x) ^^^ gf_mul 9 x)) = 0 := by decide

set_option maxRecDepth 8000 in
theorem gfDiag3 : ∀ x < 256, gf_mul 14 x ^^^ (gf_mul 11 x ^^^ (gf_mul 13 (gf_mul 3 x) ^^^ gf_mul 9 (gf_mul 2 x))) = 0 := by decide

theorem rowInv0 (a b c d : Nat) (ha : a < 256) (hb : b < 256) (hc : c < 256) (hd : d < 256) :
    gf_mul 14 (gf_mul 2 a ^^^ (gf_mul 3 b ^^^ (c ^^^ d))) ^^^ (gf_mul 11 (a ^^^ (gf_mul 2 b ^^^ (gf_mul 3 c ^^^ d))) ^^^ (gf_mul 13 (a ^^^ (b ^^^ (gf_mul 2 c ^^^ gf_mul 3 d))) ^^^ gf_mul 9 (gf_mul 3 a ^^^ (b ^^^ (c ^^^ gf_mul 2 d))))) = a := by
  simp only [gf_mul_xor]
  calc _ = (gf_mul 14 (gf_mul 2 a) ^^^ (gf_mul 11 a ^^^ (gf_mul 13 a ^^^ gf_mul 9 (gf_mul 3 a)))) ^^^ ((gf_mul 14 (gf_mul 3 b) ^^^ (gf_mul 11 (gf_mul 2 b) ^^^ (gf_mul 13 b ^^^ gf_mul 9 b))) ^^^ ((gf_mul 14 c ^^^ (gf_mul 11 (gf_mul 3 c) ^^^ (gf_mul 13 (gf_mul 2 c) ^^^ gf_mul 9 c))) ^^^ (gf_mul 14 d ^^^ (gf_mul 11 d ^^^ (gf_mul 13 (gf_mul 3 d) ^^^ gf_mul 9 (gf_mul 2 d)))))) := by ac_rfl
    _ = a ^^^ (0 ^^^ (0 ^^^ 0)) := by rw [gfDiag0 a ha, gfDiag1 b hb, gfDiag2 c hc, gfDiag3 d hd]
    _ = a := by simp

theorem rowInv1 (a b c d : Nat) (ha : a < 256) (hb : b < 256) (hc : c < 256) (hd : d < 256) :
    gf_mul 9 (gf_mul 2 a ^^^ (gf_mul 3 b ^^^ (c ^^^ d))) ^^^ (gf_mul 14 (a ^^^ (gf_mul 2 b ^^^ (gf_mul 3 c ^^^ d))) ^^^ (gf_mul 11 (a ^^^ (b ^^^ (gf_mul 2 c ^^^ gf_mul 3 d))) ^^^ gf_mul 13 (gf_mul 3 a ^^^ (b ^^^ (c ^^^ gf_mul 2 d))))) = b := by
  simp only [gf_mul_xor]
  calc _ = (gf_mul 14 a ^^^ (gf_mul 11 a ^^^ (gf_mul 13 (gf_mul 3 a) ^^^ gf_mul 9 (gf_mul 2 a)))) ^^^ ((gf_mul 14 (gf_mul 2 b) ^^^ (gf_mul 11 b ^^^ (gf_mul 13 b ^^^ gf_mul 9 (gf_mul 3 b)))) ^^^ ((gf_mul 14 (gf_mul 3 c) ^^^ (gf_mul 11 (gf_mul 2 c) ^^^ (gf_mul 13 c ^^^ gf_mul 9 c))) ^^^ (gf_mul 14 d ^^^ (gf_mul 11 (gf_mul 3 d) ^^^ (gf_mul 13 (gf_mul 2 d) ^^^ gf_mul 9 d))))) := by ac_rfl
    _ = 0 ^^^ (b ^^^ (0 ^^^ 0)) := by rw [gfDiag3 a ha, gfDiag0 b hb, gfDiag1 c hc, gfDiag2 d hd]
    _ = b := by simp

theorem rowInv2 (a b c d : Nat) (ha : a < 256) (hb : b < 256) (hc : c < 256) (hd : d < 256) :
    gf_mul 13 (gf_mul 2 a ^^^ (gf_mul 3 b ^^^ (c ^^^ d))) ^^^ (gf_mul 9 (a ^^^ (gf_mul 2 b ^^^ (gf_mul 3 c ^^^ d))) ^^^ (gf_mul 14 (a ^^^ (b ^^^ (gf_mul 2 c ^^^ gf_mul 3 d))) ^^^ gf_mul 11 (gf_mul 3 a ^^^ (b ^^^ (c ^^^ gf_mul 2 d))))) = c := by
  simp only [gf_mul_xor]
  calc _ = (gf_mul 14 a ^^^ (gf_mul 11 (gf_mul 3 a) ^^^ (gf_mul 13 (gf_mul 2 a) ^^^ gf_mul 9 a))) ^^^ ((gf_mul 14 b ^^^ (gf_mul 11 b ^^^ (gf_mul 13 (gf_mul 3 b) ^^^ gf_mul 9 (gf_mul 2 b)))) ^^^ ((gf_mul 14 (gf_mul 2 c) ^^^ (gf_mul 11 c ^^^ (gf_mul 13 c ^^^ gf_mul 9 (gf_mul 3 c)))) ^^^ (gf_mul 14 (gf_mul 3 d) ^^^ (gf_mul 11 (gf_mul 2 d) ^^^ (gf_mul 13 d ^^^ gf_mul 9 d))))) := by ac_rfl
    _ = 0 ^^^ (0 ^^^ (c ^^^ 0)) := by rw [gfDiag2 a ha, gfDiag3 b hb, gfDiag0 c hc, gfDiag1 d hd]
    _ = c := by simp

theorem rowInv3 (a b c d : Nat) (ha : a < 256) (hb : b < 256) (hc : c < 256) (hd : d < 256) :
    gf_mul 11 (gf_mul 2 a ^^^ (gf_mul 3 b ^^^ (c ^^^ d))) ^^^ (gf_mul 13 (a ^^^ (gf_mul 2 b ^^^ (gf_mul 3 c ^^^ d))) ^^^ (gf_mul 9 (a ^^^ (b ^^^ (gf_mul 2 c ^^^ gf_mul 3 d))) ^^^ gf_mul 14 (gf_mul 3 a ^^^ (b ^^^ (c ^^^ gf_mul 2 d))))) = d := by
  simp only [gf_mul_xor]
  calc _ = (gf_mul 14 (gf_mul 3 a) ^^^ (gf_mul 11 (gf_mul 2 a) ^^^ (gf_mul 13 a ^^^ gf_mul 9 a))) ^^^ ((gf_mul 14 b ^^^ (gf_mul 11 (gf_mul 3 b) ^^^ (gf_mul 13 (gf_mul 2 b) ^^^ gf_mul 9 b))) ^^^ ((gf_mul 14 c ^^^ (gf_mul 11 c ^^^ (gf_mul 13 (gf_mul 3 c) ^^^ gf_mul 9 (gf_mul 2 c)))) ^^^ (gf_mul 14 (gf_mul 2 d) ^^^ (gf_mul 11 d ^^^ (gf_mul 13 d ^^^ gf_mul 9 (gf_mul 3 d)))))) := by ac_rfl
    _ = 0 ^^^ (0 ^^^ (0 ^^^ d)) := by rw [gfDiag1 a ha, gfDiag2 b hb, gfDiag3 c hc, gfDiag0 d hd]
    _ = d := by simp

theorem exists_sixteen (l : List Nat) (h : l.length = 16) :
    ∃ b0 b1 b2 b3 b4 b5 b6 b7 b8 b9 b10 b11 b12 b13 b14 b15,
      l = [b0, b1, b2, b3, b4, b5, b6, b7, b8, b9, b10, b11, b12, b13, b14, b15] := by
  obtain ⟨b0, l, rfl⟩ := List.exists_of_length_succ l (show l.length = 15 + 1 by omega)
  have h : l.length = 15 := by simpa using h
  obtain ⟨b1, l, rfl⟩ := List.exists_of_length_succ l (show l.length = 14 + 1 by omega)
  have h : l.length = 14 := by simpa using h
  obtain ⟨b2, l, rfl⟩ := List.exists_of_length_succ l (show l.length = 13 + 1 by omega)
  have h : l.length = 13 := by simpa using h
  obtain ⟨b3, l, rfl⟩ := List.exists_of_length_succ l (show l.length = 12 + 1 by omega)
  have h : l.length = 12 := by simpa using h
  obtain ⟨b4, l, rfl⟩ := List.exists_of_length_succ l (show l.length = 11 + 1 by omega)
  have h : l.length = 11 := by simpa using h
  obtain ⟨b5, l, rfl⟩ := List.exists_of_length_succ l (show l.length = 10 + 1 by omega)
  have h : l.length = 10 := by simpa using h
  obtain ⟨b6, l, rfl⟩ := List.exists_of_length_succ l (show l.length = 9 + 1 by omega)
  have h : l.length = 9 := by simpa using h
  obtain ⟨b7, l, rfl⟩ := List.exists_of_length_succ l (show l.length = 8 + 1 by omega)
  have h : l.length = 8 := by simpa using h
  obtain ⟨b8, l, rfl⟩ := List.exists_of_length_succ l (show l.length = 7 + 1 by omega)
  have h : l.length = 7 := by simpa using h
  obtain ⟨b9, l, rfl⟩ := List.exists_of_length_succ l (show l.length = 6 + 1 by omega)
  have h : l.length = 6 := by simpa using h
  obtain ⟨b10, l, rfl⟩ := List.exists_of_length_succ l (show l.length = 5 + 1 by omega)
  have h : l.length = 5 := by simpa using h
  obtain ⟨b11, l, rfl⟩ := List.exists_of_length_succ l (show l.length = 4 + 1 by omega)
  have h : l.length = 4 := by simpa using h
  obtain ⟨b12, l, rfl⟩ := List.exists_of_length_succ l (show l.length = 3 + 1 by omega)
  have h : l.length = 3 := by simpa using h
  obtain ⟨b13, l, rfl⟩ := List.exists_of_length_succ l (show l.length = 2 + 1 by omega)
  have h : l.length = 2 := by simpa using h
  obtain ⟨b14, l, rfl⟩ := List.exists_of_length_succ l (show l.length = 1 + 1 by omega)
  have h : l.length = 1 := by simpa using h
  obtain ⟨b15, l, rfl⟩ := List.exists_of_length_succ l (show l.length = 0 + 1 by omega)
  have h : l.length = 0 := by simpa using h
  have hl : l = [] := by simpa [List.length_eq_zero] using h
  subst hl
  exact ⟨b0, b1, b2, b3, b4, b5, b6, b7, b8, b9, b10, b11, b12, b13, b14, b15, rfl⟩


theorem mix_columns_inv_mix (s : List Nat) (hl : s.length = 16) (hb : ∀ m ∈ s, m < 256) :
    mix_columns_inv (mix_columns s) = s := by
  obtain ⟨b0, b1, b2, b3, b4, b5, b6, b7, b8, b9, b10, b11, b12, b13, b14, b15, rfl⟩ := exists_sixteen s hl
  have h0 := hb b0 (by simp)
  have h1 := hb b1 (by simp)
  have h2 := hb b2 (by simp)
  have h3 := hb b3 (by simp)
  have h4 := hb b4 (by simp)
  have h5 := hb b5 (by simp)
  have h6 := hb b6 (by simp)
  have h7 := hb b7 (by simp)
  have h8 := hb b8 (by simp)
  have h9 := hb b9 (by simp)
  have h10 := hb b10 (by simp)
  have h11 := hb b11 (by simp)
  have h12 := hb b12 (by simp)
  have h13 := hb b13 (by simp)
  have h14 := hb b14 (by simp)
  have h15 := hb b15 (by simp)
  simp only [mix_columns, mix_columns_inv, List.cons.injEq, and_true]
  exact ⟨rowInv0 b0 b1 b2 b3 h0 h1 h2 h3, rowInv1 b0 b1 b2 b3 h0 h1 h2 h3, rowInv2 b0 b1 b2 b3 h0 h1 h2 h3, rowInv3 b0 b1 b2 b3 h0 h1 h2 h3, rowInv0 b4 b5 b6 b7 h4 h5 h6 h7, rowInv1 b4 b5 b6 b7 h4 h5 h6 h7, rowInv2 b4 b5 b6 b7 h4 h5 h6 h7, rowInv3 b4 b5 b6 b7 h4 h5 h6 h7, rowInv0 b8 b9 b10 b11 h8 h9 h10 h11, rowInv1 b8 b9 b10 b11 h8 h9 h10 h11, rowInv2 b8 b9 b10 b11 h8 h9 h10 h11, rowInv3 b8 b9 b10 b11 h8 h9 h10 h11, rowInv0 b12 b13 b14 b15 h12 h13 h14 h15, rowInv1 b12 b13 b14 b15 h12 h13 h14 h15, rowInv2 b12 b13 b14 b15 h12 h13 h14 h15, rowInv3 b12 b13 b14 b15 h12 h13 h14 h15⟩


/-! ### S-box and state-operation lemmas -/

set_option maxRecDepth 8000 in
theorem sbox_lt : ∀ b < 256, sbox b < 256 := by decide

set_option maxRecDepth 8000 in
theorem sboxInv_sbox : ∀ b < 256, sboxInv (sbox b) = b := by decide

set_option maxRecDepth 2000 in
theorem SBOX_length : SBOX.length = 256 := by decide

theorem sbox_lt_all (b : Nat) : sbox b < 256 := by
  by_cases h : b < 256
  · exact sbox_lt b h
  · unfold sbox
    rw [List.getD_eq_default]
    · omega
    · rw [SBOX_length]; omega

/-- A well-formed cipher state: exactly 16 bytes, each below 256. -/
def GoodBlock (l : List Nat) : Prop := l.length = 16 ∧ ∀ m ∈ l, m < 256

theorem good_xorBytes {a b : List Nat} (ha : GoodBlock a) (hb : GoodBlock b) :
    GoodBlock (xorBytes a b) :=
  ⟨by simp [length_xorBytes, ha.1, hb.1], mem_xorBytes_lt a b ha.2 hb.2⟩

theorem good_sub_bytes {s : List Nat} (h : GoodBlock s) : GoodBlock (sub_bytes s) := by
  refine ⟨by simpa [sub_bytes] using h.1, ?_⟩
  intro m hm
  simp only [sub_bytes, List.mem_map] at hm
  obtain ⟨x, _, rfl⟩ := hm
  exact sbox_lt_all x

theorem sub_bytes_inv_sub_bytes {s : List Nat} (hb : ∀ m ∈ s, m < 256) :
    sub_bytes_inv (sub_bytes s) = s := by
  induction s with
  | nil => rfl
  | cons x t ih =>
      simp only [sub_bytes, sub_bytes_inv, List.map_cons] at *
      rw [sboxInv_sbox x (hb x (by simp))]
      have ht := ih (fun m hm => hb m (by simp [hm]))
      simpa [sub_bytes, sub_bytes_inv] using ht

theorem shift_rows_length (s : List Nat) : (shift_rows s).length = s.length := by
  unfold shift_rows
  split <;> simp

theorem mix_columns_length (s : List Nat) : (mix_columns s).length = s.length := by
  unfold mix_columns
  split <;> simp

theorem mix_columns_inv_length (s : List Nat) : (mix_columns_inv s).length = s.length := by
  unfold mix_columns_inv
  split <;> simp

theorem good_shift_rows {s : List Nat} (h : GoodBlock s) : GoodBlock (shift_rows s) := by
  obtain ⟨hl, hb⟩ := h
  obtain ⟨b0, b1, b2, b3, b4, b5, b6, b7, b8, b9, b10, b11, b12, b13, b14, b15, rfl⟩ :=
    exists_sixteen s hl
  refine ⟨by simp [shift_rows], ?_⟩
  intro m hm
  simp only [shift_rows, List.mem_cons, List.not_mem_nil, or_false] at hm
  rcases hm with rfl | rfl | rfl | rfl | rfl | rfl | rfl | rfl | rfl | rfl | rfl | rfl | rfl | rfl | rfl | rfl <;>
    exact hb _ (by simp)

theorem good_mix_columns {s : List Nat} (h : GoodBlock s) : GoodBlock (mix_columns s) := by
  obtain ⟨hl, hb⟩ := h
  obtain ⟨b0, b1, b2, b3, b4, b5, b6, b7, b8, b9, b10, b11, b12, b13, b14, b15, rfl⟩ :=
    exists_sixteen s hl
  refine ⟨by simp [mix_columns], ?_⟩
  intro m hm
  simp only [mix_columns, List.mem_cons, List.not_mem_nil, or_false] at hm
  rcases hm with rfl | rfl | rfl | rfl | rfl | rfl | rfl | rfl | rfl | rfl | rfl | rfl | rfl | rfl | rfl | rfl <;>
    (apply xor4_lt <;> first
      | exact gf_mul_lt _ (hb _ (by simp))
      | exact hb _ (by simp))

theorem shift_rows_inv_shift_rows {s : List Nat} (hl : s.length = 16) :
    shift_rows_inv (shift_rows s) = s := by
  obtain ⟨b0, b1, b2, b3, b4, b5, b6, b7, b8, b9, b10, b11, b12, b13, b14, b15, rfl⟩ :=
    exists_sixteen s hl
  rfl

/-! ### round inversion -/

theorem decRounds_encRounds : ∀ (rks : List (List Nat)) (s : List Nat),
    (∀ k ∈ rks, GoodBlock k) → GoodBlock s → decRounds rks (encRounds rks s) = s := by
  intro rks
  induction rks with
  | nil => intro s _ _; rfl
  | cons k rest ih =>
      intro s hk hs
      have hgk : GoodBlock k := hk k (by simp)
      have h1 : GoodBlock (sub_bytes s) := good_sub_bytes hs
      have h2 : GoodBlock (shift_rows (sub_bytes s)) := good_shift_rows h1
      cases rest with
      | nil =>
          simp only [encRounds, decRounds]
          rw [xorBytes_cancel _ _ (by simp [h2.1, hgk.1])]
          rw [shift_rows_inv_shift_rows h1.1]
          exact sub_bytes_inv_sub_bytes hs.2
      | cons k2 rest2 =>
          have h3 : GoodBlock (mix_columns (shift_rows (sub_bytes s))) := good_mix_columns h2
          have h4 : GoodBlock (xorBytes (mix_columns (shift_rows (sub_bytes s))) k) :=
            good_xorBytes h3 hgk
          simp only [encRounds, decRounds]
          rw [ih _ (fun x hx => hk x (by simp [hx])) h4]
          rw [xorBytes_cancel _ _ (by simp [h3.1, hgk.1])]
          rw [mix_columns_inv_mix _ h2.1 h2.2]
          rw [shift_rows_inv_shift_rows h1.1]
          exact sub_bytes_inv_sub_bytes hs.2

theorem decrypt_block_encrypt_block (b ek : List Nat)
    (hek : ∀ blk ∈ toBlocks (ek.length / 16) ek, GoodBlock blk) (hb : GoodBlock b) :
    decrypt_block (encrypt_block b ek) ek = b := by
  unfold encrypt_block decrypt_block
  cases hblocks : toBlocks (ek.length / 16) ek with
  | nil => rfl
  | cons k0 rest =>
      have hk0 : GoodBlock k0 := hek k0 (by rw [hblocks]; simp)
      have hrest : ∀ x ∈ rest, GoodBlock x := fun x hx => hek x (by rw [hblocks]; simp [hx])
      simp only
      rw [decRounds_encRounds rest _ hrest (good_xorBytes hb hk0)]
      exact xorBytes_cancel b k0 (by simp [hb.1, hk0.1])

/-! ### key-expansion structure -/

theorem rotWord_length (l : List Nat) : (rotWord l).length = l.length := by
  cases l <;> simp [rotWord]

theorem rcon_lt : ∀ n, rcon n < 256 := by
  intro n
  induction n with
  | zero => decide
  | succ n ih => exact xtime_lt _ ih

theorem headD_length {acc : List (List Nat)} (ha : ∀ w ∈ acc, w.length = 4)
    (hn : 1 ≤ acc.length) : (acc.headD []).length = 4 := by
  cases acc with
  | nil => simp at hn
  | cons w t => exact ha w (by simp)

theorem getD_length {acc : List (List Nat)} {i : Nat} (ha : ∀ w ∈ acc, w.length = 4)
    (hi : i < acc.length) : (acc.getD i []).length = 4 := by
  rw [List.getD_eq_getElem _ _ hi]
  exact ha _ (List.getElem_mem hi)

theorem headD_bounds {acc : List (List Nat)} (hb : ∀ w ∈ acc, ∀ b ∈ w, b < 256) :
    ∀ b ∈ acc.headD [], b < 256 := by
  cases acc with
  | nil => simp
  | cons w t => exact hb w (by simp)

theorem getD_bounds {acc : List (List Nat)} {i : Nat} (hb : ∀ w ∈ acc, ∀ b ∈ w, b < 256) :
    ∀ b ∈ acc.getD i [], b < 256 := by
  by_cases hi : i < acc.length
  · rw [List.getD_eq_getElem _ _ hi]
    exact hb _ (List.getElem_mem hi)
  · rw [List.getD_eq_default _ _ (by omega)]
    simp

theorem mem_sub_bytes_lt (l : List Nat) : ∀ m ∈ sub_bytes l, m < 256 := by
  intro m hm
  simp only [sub_bytes, List.mem_map] at hm
  obtain ⟨x, _, rfl⟩ := hm
  exact sbox_lt_all x

theorem nextWord_length {nk : Nat} {acc : List (List Nat)} (ha : ∀ w ∈ acc, w.length = 4)
    (hn : nk ≤ acc.length) (hnk : 1 ≤ nk) : (nextWord nk acc).length = 4 := by
  have hhead := headD_length ha (by omega)
  have hback := getD_length ha (show nk - 1 < acc.length by omega)
  unfold nextWord
  split
  · rw [length_xorBytes, length_xorBytes, hback]
    simp only [sub_bytes, List.length_map, rotWord_length, hhead]
    simp
  · rw [length_xorBytes, hback, hhead]
    simp

theorem nextWord_bounds {nk : Nat} {acc : List (List Nat)}
    (hb : ∀ w ∈ acc, ∀ b ∈ w, b < 256) : ∀ b ∈ nextWord nk acc, b < 256 := by
  unfold nextWord
  split
  · refine mem_xorBytes_lt _ _ (getD_bounds hb) (mem_xorBytes_lt _ _ (mem_sub_bytes_lt _) ?_)
    intro b hb2
    simp only [List.mem_cons, List.not_mem_nil, or_false] at hb2
    rcases hb2 with rfl | rfl | rfl | rfl
    · exact rcon_lt _
    all_goals omega
  · exact mem_xorBytes_lt _ _ (getD_bounds hb) (headD_bounds hb)

theorem expandWords_len {nk : Nat} (hnk : 1 ≤ nk) : ∀ (fuel : Nat) (acc : List (List Nat)),
    (∀ w ∈ acc, w.length = 4) → nk ≤ acc.length →
    (∀ w ∈ expandWords nk fuel acc, w.length = 4) ∧
      (expandWords nk fuel acc).length = acc.length + fuel := by
  intro fuel
  induction fuel with
  | zero => intro acc ha _; exact ⟨ha, by simp [expandWords]⟩
  | succ fuel ih =>
      intro acc ha hn
      have hW := nextWord_length ha hn hnk
      have ha2 : ∀ w ∈ nextWord nk acc :: acc, w.length = 4 := by
        intro w hw
        rcases List.mem_cons.mp hw with rfl | hw
        · exact hW
        · exact ha w hw
      obtain ⟨h1, h2⟩ := ih (nextWord nk acc :: acc) ha2 (by simp; omega)
      refine ⟨?_, ?_⟩
      · intro w hw
        exact h1 w (by simpa [expandWords] using hw)
      · show (expandWords nk (fuel + 1) acc).length = acc.length + (fuel + 1)
        simp only [expandWords]
        rw [h2]
        simp
        omega

theorem expandWords_bounds {nk : Nat} : ∀ (fuel : Nat) (acc : List (List Nat)),
    (∀ w ∈ acc, ∀ b ∈ w, b < 256) →
    ∀ w ∈ expandWords nk fuel acc, ∀ b ∈ w, b < 256 := by
  intro fuel
  induction fuel with
  | zero => intro acc hb; simpa [expandWords] using hb
  | succ fuel ih =>
      intro acc hb
      have hb2 : ∀ w ∈ nextWord nk acc :: acc, ∀ b ∈ w, b < 256 := by
        intro w hw
        rcases List.mem_cons.mp hw with rfl | hw
        · exact nextWord_bounds hb
        · exact hb w hw
      intro w hw
      exact ih (nextWord nk acc :: acc) hb2 w (by simpa [expandWords] using hw)

theorem toWords_len : ∀ (n : Nat) (l : List Nat), l.length = 4 * n →
    (∀ w ∈ toWords n l, w.length = 4) ∧ (toWords n l).length = n := by
  intro n
  induction n with
  | zero => intro l h; simp [toWords]
  | succ n ih =>
      intro l h
      obtain ⟨ha, hc⟩ := ih (l.drop 4) (by simp [List.length_drop]; omega)
      refine ⟨?_, by simp [toWords, hc]⟩
      intro w hw
      rcases List.mem_cons.mp (by simpa [toWords] using hw) with rfl | hw2
      · simp [List.length_take]; omega
      · exact ha w hw2

theorem toWords_bounds : ∀ (n : Nat) (l : List Nat), (∀ b ∈ l, b < 256) →
    ∀ w ∈ toWords n l, ∀ b ∈ w, b < 256 := by
  intro n
  induction n with
  | zero => intro l _; simp [toWords]
  | succ n ih =>
      intro l hb w hw
      rcases List.mem_cons.mp (by simpa [toWords] using hw) with rfl | hw2
      · intro b hbm; exact hb b (List.mem_of_mem_take hbm)
      · exact ih (l.drop 4) (fun b hbm => hb b (List.mem_of_mem_drop hbm)) w hw2

theorem flatten_len4 : ∀ (l : List (List Nat)), (∀ w ∈ l, w.length = 4) →
    l.flatten.length = 4 * l.length := by
  intro l
  induction l with
  | nil => intro _; simp
  | cons w t ih =>
      intro h
      have hw : w.length = 4 := h w (by simp)
      have ht := ih (fun x hx => h x (by simp [hx]))
      simp [hw, ht]
      omega

theorem flatten_bounds : ∀ (l : List (List Nat)), (∀ w ∈ l, ∀ b ∈ w, b < 256) →
    ∀ b ∈ l.flatten, b < 256 := by
  intro l hb b hbm
  rw [List.mem_flatten] at hbm
  obtain ⟨w, hw, hbw⟩ := hbm
  exact hb w hw b hbw

theorem key_expansion_length (key : List Nat) (nk : Nat) (h : key.length = 4 * nk)
    (h1 : 1 ≤ nk) : (key_expansion key).length = 16 * (nk + 7) := by
  unfold key_expansion
  have hnkdef : key.length / 4 = nk := by omega
  rw [hnkdef]
  obtain ⟨htw1, htw2⟩ := toWords_len nk key h
  obtain ⟨he1, he2⟩ := expandWords_len h1 (3 * nk + 28) (toWords nk key).reverse
    (fun w hw => htw1 w (List.mem_reverse.mp hw))
    (by rw [List.length_reverse, htw2])
  rw [flatten_len4 _ (fun w hw => he1 w (List.mem_reverse.mp hw))]
  rw [List.length_reverse, he2, List.length_reverse, htw2]
  omega

theorem key_expansion_bounds (key : List Nat) (hkb : ∀ b ∈ key, b < 256) :
    ∀ b ∈ key_expansion key, b < 256 := by
  unfold key_expansion
  apply flatten_bounds
  intro w hw
  exact expandWords_bounds _ _
    (fun w2 hw2 => toWords_bounds _ key hkb w2 (List.mem_reverse.mp hw2))
    w (List.mem_reverse.mp hw)

theorem toBlocks_len : ∀ (m : Nat) (l : List Nat), l.length = 16 * m →
    (∀ blk ∈ toBlocks m l, blk.length = 16) ∧ (toBlocks m l).length = m := by
  intro m
  induction m with
  | zero => intro l h; simp [toBlocks]
  | succ m ih =>
      intro l h
      obtain ⟨ha, hc⟩ := ih (l.drop 16) (by simp [List.length_drop]; omega)
      refine ⟨?_, by simp [toBlocks, hc]⟩
      intro blk hblk
      rcases List.mem_cons.mp (by simpa [toBlocks] using hblk) with rfl | hb2
      · simp [List.length_take]; omega
      · exact ha blk hb2

theorem toBlocks_bounds : ∀ (m : Nat) (l : List Nat), (∀ b ∈ l, b < 256) →
    ∀ blk ∈ toBlocks m l, ∀ b ∈ blk, b < 256 := by
  intro m
  induction m with
  | zero => intro l _; simp [toBlocks]
  | succ m ih =>
      intro l hb blk hblk
      rcases List.mem_cons.mp (by simpa [toBlocks] using hblk) with rfl | hb2
      · intro b hbm; exact hb b (List.mem_of_mem_take hbm)
      · exact ih (l.drop 16) (fun b hbm => hb b (List.mem_of_mem_drop hbm)) blk hb2

/-- A key of one of the three supported sizes (spec 3). -/
def validKeyLength (key : List Nat) : Prop :=
  key.length = 16 ∨ key.length = 24 ∨ key.length = 32

theorem validKeyLength_elim {key : List Nat} (hk : validKeyLength key) :
    ∃ nk, key.length = 4 * nk ∧ 1 ≤ nk := by
  rcases hk with h | h | h
  · exact ⟨4, by omega, by omega⟩
  · exact ⟨6, by omega, by omega⟩
  · exact ⟨8, by omega, by omega⟩

theorem schedule_blocks_len {key : List Nat} (hk : validKeyLength key) :
    ∀ blk ∈ toBlocks ((key_expansion key).length / 16) (key_expansion key),
      blk.length = 16 := by
  obtain ⟨nk, h, h1⟩ := validKeyLength_elim hk
  have hlen := key_expansion_length key nk h h1
  have hdiv : (key_expansion key).length / 16 = nk + 7 := by omega
  rw [hdiv]
  exact (toBlocks_len (nk + 7) _ (by omega)).1

theorem schedule_blocks_good {key : List Nat} (hk : validKeyLength key)
    (hkb : ∀ b ∈ key, b < 256) :
    ∀ blk ∈ toBlocks ((key_expansion key).length / 16) (key_expansion key),
      GoodBlock blk := by
  intro blk hblk
  refine ⟨schedule_blocks_len hk blk hblk, ?_⟩
  obtain ⟨nk, h, h1⟩ := validKeyLength_elim hk
  exact toBlocks_bounds _ _ (key_expansion_bounds key hkb) blk hblk

/-! ### C1: block decryption inverts block encryption -/

/-- C1: for every valid key schedule (expanded from a 16-, 24- or 32-byte
key of bytes) and every 16-byte block `b`, block decryption is the exact
inverse of block encryption:
`decrypt_block (encrypt_block b k) k = b`. -/
theorem c1_block_roundtrip (key block : List Nat) (hk : validKeyLength key)
    (hkb : ∀ b ∈ key, b < 256) (hb : block.length = 16) (hbb : ∀ b ∈ block, b < 256) :
    decrypt_block (encrypt_block block (key_expansion key)) (key_expansion key) = block :=
  decrypt_block_encrypt_block block _ (schedule_blocks_good hk hkb) ⟨hb, hbb⟩

/-- Witness for C1 at the FIPS-197 example key and plaintext block. -/
theorem c1_block_roundtrip_witness :
    validKeyLength [0, 1, 2, 3, 4, 5, 6, 7, 8, 9, 10, 11, 12, 13, 14, 15] ∧
    decrypt_block
      (encrypt_block [0x00, 0x11, 0x22, 0x33, 0x44, 0x55, 0x66, 0x77, 0x88, 0x99, 0xaa, 0xbb, 0xcc, 0xdd, 0xee, 0xff]
        (key_expansion [0, 1, 2, 3, 4, 5, 6, 7, 8, 9, 10, 11, 12, 13, 14, 15]))
      (key_expansion [0, 1, 2, 3, 4, 5, 6, 7, 8, 9, 10, 11, 12, 13, 14, 15]) =
      [0x00, 0x11, 0x22, 0x33, 0x44, 0x55, 0x66, 0x77, 0x88, 0x99, 0xaa, 0xbb, 0xcc, 0xdd, 0xee, 0xff] :=
  ⟨by unfold validKeyLength; decide,
   c1_block_roundtrip [0, 1, 2, 3, 4, 5, 6, 7, 8, 9, 10, 11, 12, 13, 14, 15]
     [0x00, 0x11, 0x22, 0x33, 0x44, 0x55, 0x66, 0x77, 0x88, 0x99, 0xaa, 0xbb, 0xcc, 0xdd, 0xee, 0xff]
     (by unfold validKeyLength; decide) (by decide) (by decide) (by decide)⟩

/-! ### CTR mode: length preservation and self-inversion -/

theorem incRev_length : ∀ (l : List Nat), (incRev l).length = l.length := by
  intro l
  induction l with
  | nil => rfl
  | cons b t ih =>
      by_cases hb : b = 255 <;> simp [incRev, hb, ih]

theorem inc_length (c : List Nat) : (inc c).length = c.length := by
  simp [inc, incRev_length]

theorem encRounds_length : ∀ (rks : List (List Nat)) (s : List Nat),
    (∀ k ∈ rks, k.length = 16) → s.length = 16 → (encRounds rks s).length = 16 := by
  intro rks
  induction rks with
  | nil => intro s _ hs; exact hs
  | cons k rest ih =>
      intro s hk hs
      have hk0 : k.length = 16 := hk k (by simp)
      have hsub : (sub_bytes s).length = 16 := by simpa [sub_bytes] using hs
      have hshift : (shift_rows (sub_bytes s)).length = 16 := by
        rw [shift_rows_length]; exact hsub
      cases rest with
      | nil => simp [encRounds, length_xorBytes, hshift, hk0]
      | cons k2 rest2 =>
          have hmix : (mix_columns (shift_rows (sub_bytes s))).length = 16 := by
            rw [mix_columns_length]; exact hshift
          simp only [encRounds]
          exact ih _ (fun x hx => hk x (by simp [hx]))
            (by simp [length_xorBytes, hmix, hk0])

theorem encrypt_block_length (data ek : List Nat) (hd : data.length = 16)
    (hek : ∀ blk ∈ toBlocks (ek.length / 16) ek, blk.length = 16) :
    (encrypt_block data ek).length = 16 := by
  unfold encrypt_block
  cases hblocks : toBlocks (ek.length / 16) ek with
  | nil => exact hd
  | cons k0 rest =>
      have hk0 : k0.length = 16 := hek k0 (by rw [hblocks]; simp)
      have hrest : ∀ x ∈ rest, x.length = 16 := fun x hx => hek x (by rw [hblocks]; simp [hx])
      exact encRounds_length rest _ hrest (by simp [length_xorBytes, hd, hk0])

theorem ctrCore_nil (ek : List Nat) : ∀ (n : Nat) (ctr : List Nat),
    ctrCore ek n ctr [] = [] := by
  intro n
  induction n with
  | zero => intro ctr; rfl
  | succ n ih => intro ctr; simp [ctrCore, xorBytes, ih]

theorem ctrCore_length (ek : List Nat)
    (hek : ∀ blk ∈ toBlocks (ek.length / 16) ek, blk.length = 16) :
    ∀ (n : Nat) (ctr data : List Nat), ctr.length = 16 →
      (ctrCore ek n ctr data).length = min data.length (16 * n) := by
  intro n
  induction n with
  | zero => intro ctr data _; simp [ctrCore]
  | succ n ih =>
      intro ctr data hctr
      have hks : (encrypt_block ctr ek).length = 16 := encrypt_block_length ctr ek hctr hek
      have hrec := ih (inc ctr) (data.drop 16) (by rw [inc_length]; exact hctr)
      simp only [ctrCore, List.length_append, length_xorBytes, List.length_take,
        List.length_drop, hks, hrec]
      omega

theorem ctrCore_inverse (ek : List Nat)
    (hek : ∀ blk ∈ toBlocks (ek.length / 16) ek, blk.length = 16) :
    ∀ (n : Nat) (ctr data : List Nat), ctr.length = 16 → data.length ≤ 16 * n →
      ctrCore ek n ctr (ctrCore ek n ctr data) = data := by
  intro n
  induction n with
  | zero =>
      intro ctr data _ hlen
      have : data = [] := List.eq_nil_of_length_eq_zero (by omega)
      subst this
      rfl
  | succ n ih =>
      intro ctr data hctr hlen
      have hks : (encrypt_block ctr ek).length = 16 := encrypt_block_length ctr ek hctr hek
      by_cases hsmall : data.length ≤ 16
      · have htake : data.take 16 = data := List.take_of_length_le hsmall
        have hdrop : data.drop 16 = [] := List.drop_eq_nil_of_le hsmall
        have hxlen : (xorBytes data (encrypt_block ctr ek)).length ≤ 16 := by
          rw [length_xorBytes]; omega
        simp only [ctrCore, htake, hdrop, ctrCore_nil, List.append_nil]
        rw [List.take_of_length_le hxlen, List.drop_eq_nil_of_le hxlen, ctrCore_nil,
          List.append_nil]
        exact xorBytes_cancel data _ (by omega)
      · have hchunk : (data.take 16).length = 16 := by simp [List.length_take]; omega
        have hxlen : (xorBytes (data.take 16) (encrypt_block ctr ek)).length = 16 := by
          rw [length_xorBytes, hchunk, hks]
          simp
        have h1 : (xorBytes (data.take 16) (encrypt_block ctr ek) ++
            ctrCore ek n (inc ctr) (data.drop 16)).take 16 =
            xorBytes (data.take 16) (encrypt_block ctr ek) := List.take_left' hxlen
        have h2 : (xorBytes (data.take 16) (encrypt_block ctr ek) ++
            ctrCore ek n (inc ctr) (data.drop 16)).drop 16 =
            ctrCore ek n (inc ctr) (data.drop 16) := List.drop_left' hxlen
        simp only [ctrCore, h1, h2]
        rw [xorBytes_cancel _ _ (by omega)]
        rw [ih (inc ctr) (data.drop 16) (by rw [inc_length]; exact hctr)
          (by simp [List.length_drop]; omega)]
        exact List.take_append_drop 16 data

theorem numBlocks_ge (l : Nat) : l ≤ 16 * numBlocks l := by
  unfold numBlocks
  omega

theorem ctr_encrypt_length (p key iv : List Nat) (hk : validKeyLength key)
    (hiv : iv.length = 16) : (ctr_encrypt p key iv).length = p.length := by
  unfold ctr_encrypt
  rw [ctrCore_length _ (schedule_blocks_len hk) _ _ _ hiv]
  have := numBlocks_ge p.length
  omega

/-! ### C4: CTR self-inversion and exact length preservation -/

/-- C4: for every valid key, 16-byte IV and byte sequence `p` of arbitrary
length (including lengths that are not multiples of 16),
`ctr_decrypt (ctr_encrypt p key iv) key iv = p`, and both CTR operations
return output of exactly the input's length (no padding). -/
theorem c4_ctr_roundtrip (p key iv : List Nat) (hk : validKeyLength key)
    (hiv : iv.length = 16) :
    ctr_decrypt (ctr_encrypt p key iv) key iv = p ∧
    (ctr_encrypt p key iv).length = p.length ∧
    (ctr_decrypt p key iv).length = p.length := by
  have hek := schedule_blocks_len hk
  have hlen := ctr_encrypt_length p key iv hk hiv
  refine ⟨?_, hlen, ctr_encrypt_length p key iv hk hiv⟩
  unfold ctr_decrypt
  unfold ctr_encrypt at hlen ⊢
  rw [hlen]
  exact ctrCore_inverse _ hek _ _ _ hiv (numBlocks_ge _)

/-- Witness for C4 on a 3-byte message (not a multiple of the block size). -/
theorem c4_ctr_roundtrip_witness :
    validKeyLength [0, 0, 0, 0, 0, 0, 0, 0, 0, 0, 0, 0, 0, 0, 0, 0] ∧
    ([9, 9, 9, 9, 9, 9, 9, 9, 9, 9, 9, 9, 9, 9, 9, 9] : List Nat).length = 16 ∧
    (ctr_decrypt
        (ctr_encrypt [1, 2, 3] [0, 0, 0, 0, 0, 0, 0, 0, 0, 0, 0, 0, 0, 0, 0, 0]
          [9, 9, 9, 9, 9, 9, 9, 9, 9, 9, 9, 9, 9, 9, 9, 9])
        [0, 0, 0, 0, 0, 0, 0, 0, 0, 0, 0, 0, 0, 0, 0, 0]
        [9, 9, 9, 9, 9, 9, 9, 9, 9, 9, 9, 9, 9, 9, 9, 9] = [1, 2, 3] ∧
      (ctr_encrypt [1, 2, 3] [0, 0, 0, 0, 0, 0, 0, 0, 0, 0, 0, 0, 0, 0, 0, 0]
        [9, 9, 9, 9, 9, 9, 9, 9, 9, 9, 9, 9, 9, 9, 9, 9]).length = ([1, 2, 3] : List Nat).length ∧
      (ctr_decrypt [1, 2, 3] [0, 0, 0, 0, 0, 0, 0, 0, 0, 0, 0, 0, 0, 0, 0, 0]
        [9, 9, 9, 9, 9, 9, 9, 9, 9, 9, 9, 9, 9, 9, 9, 9]).length = ([1, 2, 3] : List Nat).length) :=
  ⟨by unfold validKeyLength; decide, by decide,
   c4_ctr_roundtrip [1, 2, 3] [0, 0, 0, 0, 0, 0, 0, 0, 0, 0, 0, 0, 0, 0, 0, 0]
     [9, 9, 9, 9, 9, 9, 9, 9, 9, 9, 9, 9, 9, 9, 9, 9]
     (by unfold validKeyLength; decide) (by decide)⟩

/-! ### C5 and C6: GCM authentication -/

/-- C5: whenever the tag recomputed by GCM over the supplied ciphertext and
associated data differs from the supplied tag, `gcm_decrypt_and_verify`
fails with the authentication error and returns no plaintext; the comparison
happens strictly before any decryption result is produced. -/
theorem c5_gcm_fail_closed (ct key tag nonce aad : List Nat) (hn : nonce.length = 12)
    (hmismatch : tag ≠ gcmTag ct aad (key_expansion key) (nonce ++ [0, 0, 0, 1])) :
    gcm_decrypt_and_verify ct key tag nonce aad =
      Except.error AesError.authenticationError := by
  unfold gcm_decrypt_and_verify
  rw [if_pos hn, if_neg hmismatch]

set_option maxRecDepth 1000000 in
/-- Witness for C5: the empty tag never matches the 16-byte recomputed tag. -/
theorem c5_gcm_fail_closed_witness :
    ([0, 0, 0, 0, 0, 0, 0, 0, 0, 0, 0, 0] : List Nat).length = 12 ∧
    ([] : List Nat) ≠
      gcmTag [] [] (key_expansion [0, 0, 0, 0, 0, 0, 0, 0, 0, 0, 0, 0, 0, 0, 0, 0])
        ([0, 0, 0, 0, 0, 0, 0, 0, 0, 0, 0, 0] ++ [0, 0, 0, 1]) ∧
    gcm_decrypt_and_verify [] [0, 0, 0, 0, 0, 0, 0, 0, 0, 0, 0, 0, 0, 0, 0, 0] []
      [0, 0, 0, 0, 0, 0, 0, 0, 0, 0, 0, 0] [] =
      Except.error AesError.authenticationError :=
  ⟨by decide, by decide,
   c5_gcm_fail_closed [] [0, 0, 0, 0, 0, 0, 0, 0, 0, 0, 0, 0, 0, 0, 0, 0] []
     [0, 0, 0, 0, 0, 0, 0, 0, 0, 0, 0, 0] [] (by decide) (by decide)⟩

/-- C6: for every plaintext, valid key, 12-byte nonce and associated data,
the ciphertext/tag pair produced by `gcm_encrypt_and_tag` is accepted by
`gcm_decrypt_and_verify`, which returns the original plaintext. -/
theorem c6_gcm_roundtrip (p key nonce aad c t : List Nat) (hk : validKeyLength key)
    (hn : nonce.length = 12)
    (henc : gcm_encrypt_and_tag p key nonce aad = Except.ok (c, t)) :
    gcm_decrypt_and_verify c key t nonce aad = Except.ok p := by
  unfold gcm_encrypt_and_tag at henc
  rw [if_pos hn] at henc
  injection henc with h
  simp only [Prod.mk.injEq] at h
  obtain ⟨hc, ht⟩ := h
  subst hc
  subst ht
  have hek := schedule_blocks_len hk
  have hj0 : (nonce ++ [0, 0, 0, 1] : List Nat).length = 16 := by simp [hn]
  have hinc : (inc (nonce ++ [0, 0, 0, 1])).length = 16 := by rw [inc_length]; exact hj0
  have hclen : (ctrCore (key_expansion key) (numBlocks p.length)
      (inc (nonce ++ [0, 0, 0, 1])) p).length = p.length := by
    rw [ctrCore_length _ hek _ _ _ hinc]
    have := numBlocks_ge p.length
    omega
  unfold gcm_decrypt_and_verify
  rw [if_pos hn, if_pos rfl, hclen]
  rw [ctrCore_inverse _ hek _ _ _ hinc (numBlocks_ge _)]

set_option maxRecDepth 1000000 in
/-- Witness for C6 on a 3-byte plaintext with nonempty associated data. -/
theorem c6_gcm_roundtrip_witness :
    validKeyLength [0, 0, 0, 0, 0, 0, 0, 0, 0, 0, 0, 0, 0, 0, 0, 0] ∧
    ([0, 0, 0, 0, 0, 0, 0, 0, 0, 0, 0, 0] : List Nat).length = 12 ∧
    gcm_encrypt_and_tag [1, 2, 3] [0, 0, 0, 0, 0, 0, 0, 0, 0, 0, 0, 0, 0, 0, 0, 0]
      [0, 0, 0, 0, 0, 0, 0, 0, 0, 0, 0, 0] [5] =
      Except.ok ([2, 138, 217], [157, 171, 116, 93, 237, 61, 216, 3, 144, 205, 192, 128, 169, 15, 100, 169]) ∧
    gcm_decrypt_and_verify [2, 138, 217] [0, 0, 0, 0, 0, 0, 0, 0, 0, 0, 0, 0, 0, 0, 0, 0]
      [157, 171, 116, 93, 237, 61, 216, 3, 144, 205, 192, 128, 169, 15, 100, 169]
      [0, 0, 0, 0, 0, 0, 0, 0, 0, 0, 0, 0] [5] = Except.ok [1, 2, 3] :=
  ⟨by unfold validKeyLength; decide, by decide, by rfl,
   c6_gcm_roundtrip [1, 2, 3] [0, 0, 0, 0, 0, 0, 0, 0, 0, 0, 0, 0, 0, 0, 0, 0]
     [0, 0, 0, 0, 0, 0, 0, 0, 0, 0, 0, 0] [5] [2, 138, 217]
     [157, 171, 116, 93, 237, 61, 216, 3, 144, 205, 192, 128, 169, 15, 100, 169]
     (by unfold validKeyLength; decide) (by decide) (by rfl)⟩

/-! ### C2, C3: golden vectors -/

set_option maxRecDepth 1000000 in
/-- C2: expanding the 16-byte key `4f6bdaa39e2f8cb07f5e722d9edef314`
reproduces the documented 176-byte expansion byte for byte. -/
theorem c2_key_expansion_golden :
    key_expansion [
      0x4f, 0x6b, 0xda, 0xa3, 0x9e, 0x2f, 0x8c, 0xb0, 0x7f, 0x5e, 0x72, 0x2d, 0x9e, 0xde, 0xf3, 0x14] =
    [
      0x4f, 0x6b, 0xda, 0xa3, 0x9e, 0x2f, 0x8c, 0xb0, 0x7f, 0x5e, 0x72, 0x2d, 0x9e, 0xde, 0xf3, 0x14,
      0x53, 0x66, 0x20, 0xa8, 0xcd, 0x49, 0xac, 0x18, 0xb2, 0x17, 0xde, 0x35, 0x2c, 0xc9, 0x2d, 0x21,
      0x8c, 0xbe, 0xdd, 0xd9, 0x41, 0xf7, 0x71, 0xc1, 0xf3, 0xe0, 0xaf, 0xf4, 0xdf, 0x29, 0x82, 0xd5,
      0x2d, 0xad, 0xde, 0x47, 0x6c, 0x5a, 0xaf, 0x86, 0x9f, 0xba, 0x00, 0x72, 0x40, 0x93, 0x82, 0xa7,
      0xf9, 0xbe, 0x82, 0x4e, 0x95, 0xe4, 0x2d, 0xc8, 0x0a, 0x5e, 0x2d, 0xba, 0x4a, 0xcd, 0xaf, 0x1d,
      0x54, 0xc7, 0x26, 0x98, 0xc1, 0x23, 0x0b, 0x50, 0xcb, 0x7d, 0x26, 0xea, 0x81, 0xb0, 0x89, 0xf7,
      0x93, 0x60, 0x4e, 0x94, 0x52, 0x43, 0x45, 0xc4, 0x99, 0x3e, 0x63, 0x2e, 0x18, 0x8e, 0xea, 0xd9,
      0xca, 0xe7, 0x7b, 0x39, 0x98, 0xa4, 0x3e, 0xfd, 0x01, 0x9a, 0x5d, 0xd3, 0x19, 0x14, 0xb7, 0x0a,
      0xb0, 0x4e, 0x1c, 0xed, 0x28, 0xea, 0x22, 0x10, 0x29, 0x70, 0x7f, 0xc3, 0x30, 0x64, 0xc8, 0xc9,
      0xe8, 0xa6, 0xc1, 0xe9, 0xc0, 0x4c, 0xe3, 0xf9, 0xe9, 0x3c, 0x9c, 0x3a, 0xd9, 0x58, 0x54, 0xf3,
      0xb4, 0x86, 0xcc, 0xdc, 0x74, 0xca, 0x2f, 0x25, 0x9d, 0xf6, 0xb3, 0x1f, 0x44, 0xae, 0xe7, 0xec] := by rfl

set_option maxRecDepth 1000000 in
/-- C3: with key = IV = `[0x20, 0x15]` followed by 14 zero bytes, CBC
encryption of the plaintext `b"Secret message goes here"` padded to 32 bytes
with `0x08` yields exactly the documented 32-byte ciphertext, and CBC
decryption of that ciphertext reproduces the padded plaintext. -/
theorem c3_cbc_golden :
    cbc_encrypt [
      0x53, 0x65, 0x63, 0x72, 0x65, 0x74, 0x20, 0x6d, 0x65, 0x73, 0x73, 0x61, 0x67, 0x65, 0x20, 0x67,
      0x6f, 0x65, 0x73, 0x20, 0x68, 0x65, 0x72, 0x65, 0x08, 0x08, 0x08, 0x08, 0x08, 0x08, 0x08, 0x08]
      [
      0x20, 0x15, 0x00, 0x00, 0x00, 0x00, 0x00, 0x00, 0x00, 0x00, 0x00, 0x00, 0x00, 0x00, 0x00, 0x00]
      [
      0x20, 0x15, 0x00, 0x00, 0x00, 0x00, 0x00, 0x00, 0x00, 0x00, 0x00, 0x00, 0x00, 0x00, 0x00, 0x00] =
      Except.ok [
      0x97, 0x92, 0x2b, 0xe5, 0x0b, 0xc3, 0x18, 0x91, 0x6b, 0x79, 0x39, 0x6d, 0x26, 0xb3, 0xb5, 0x40,
      0xe6, 0x27, 0xc2, 0x96, 0x2e, 0xc8, 0x75, 0x88, 0xab, 0x39, 0x2d, 0x5b, 0x9e, 0x7c, 0xf1, 0xcd] ∧
    cbc_decrypt [
      0x97, 0x92, 0x2b, 0xe5, 0x0b, 0xc3, 0x18, 0x91, 0x6b, 0x79, 0x39, 0x6d, 0x26, 0xb3, 0xb5, 0x40,
      0xe6, 0x27, 0xc2, 0x96, 0x2e, 0xc8, 0x75, 0x88, 0xab, 0x39, 0x2d, 0x5b, 0x9e, 0x7c, 0xf1, 0xcd]
      [
      0x20, 0x15, 0x00, 0x00, 0x00, 0x00, 0x00, 0x00, 0x00, 0x00, 0x00, 0x00, 0x00, 0x00, 0x00, 0x00]
      [
      0x20, 0x15, 0x00, 0x00, 0x00, 0x00, 0x00, 0x00, 0x00, 0x00, 0x00, 0x00, 0x00, 0x00, 0x00, 0x00] =
      Except.ok [
      0x53, 0x65, 0x63, 0x72, 0x65, 0x74, 0x20, 0x6d, 0x65, 0x73, 0x73, 0x61, 0x67, 0x65, 0x20, 0x67,
      0x6f, 0x65, 0x73, 0x20, 0x68, 0x65, 0x72, 0x65, 0x08, 0x08, 0x08, 0x08, 0x08, 0x08, 0x08, 0x08] :=
  ⟨by rfl, by rfl⟩

/-! ### C7: ECB and CBC reject data that is not a 16-byte multiple -/

/-- C7: for every key and IV, the ECB and CBC entry points fail with the
invalid-data-length error whenever the input length is not a multiple of 16
bytes. -/
theorem c7_length_errors (data key iv : List Nat) (h : data.length % 16 ≠ 0) :
    ecb_encrypt data key iv = Except.error AesError.invalidDataLength ∧
    ecb_decrypt data key iv = Except.error AesError.invalidDataLength ∧
    cbc_encrypt data key iv = Except.error AesError.invalidDataLength ∧
    cbc_decrypt data key iv = Except.error AesError.invalidDataLength := by
  refine ⟨?_, ?_, ?_, ?_⟩
  · unfold ecb_encrypt
    rw [if_neg h]
  · unfold ecb_decrypt
    rw [if_neg h]
  · unfold cbc_encrypt
    rw [if_neg h]
  · unfold cbc_decrypt
    rw [if_neg h]

/-- Witness for C7 on a 1-byte input. -/
theorem c7_length_errors_witness :
    ([1] : List Nat).length % 16 ≠ 0 ∧
    (ecb_encrypt [1] [] [] = Except.error AesError.invalidDataLength ∧
     ecb_decrypt [1] [] [] = Except.error AesError.invalidDataLength ∧
     cbc_encrypt [1] [] [] = Except.error AesError.invalidDataLength ∧
     cbc_decrypt [1] [] [] = Except.error AesError.invalidDataLength) :=
  ⟨by decide, c7_length_errors [1] [] [] (by decide)⟩

/-! ### C9, C10: padding schemes -/

/-- C9: for every recognized padding scheme and every input block that is
already exactly 16 bytes long, `pad_block` returns the block unchanged; no
scheme appends an extra full block of padding. -/
theorem c9_pad_full_block (b : List Nat) (scheme : String) (hs : scheme ∈ PADDING_SCHEMES)
    (hb : b.length = 16) : pad_block b scheme = Except.ok b := by
  unfold pad_block
  rw [if_pos hs, if_pos (by omega)]
  simp only [PADDING_SCHEMES, List.mem_cons, List.not_mem_nil, or_false] at hs
  rcases hs with rfl | rfl | rfl | rfl <;> simp [hb]

/-- Witness for C9 at a concrete 16-byte block under each scheme. -/
theorem c9_pad_full_block_witness :
    "iso7816" ∈ PADDING_SCHEMES ∧
    ([0, 1, 2, 3, 4, 5, 6, 7, 8, 9, 10, 11, 12, 13, 14, 15] : List Nat).length = 16 ∧
    pad_block [0, 1, 2, 3, 4, 5, 6, 7, 8, 9, 10, 11, 12, 13, 14, 15] "iso7816" =
      Except.ok [0, 1, 2, 3, 4, 5, 6, 7, 8, 9, 10, 11, 12, 13, 14, 15] :=
  ⟨by unfold PADDING_SCHEMES; decide, by decide,
   c9_pad_full_block [0, 1, 2, 3, 4, 5, 6, 7, 8, 9, 10, 11, 12, 13, 14, 15] "iso7816"
     (by unfold PADDING_SCHEMES; decide) (by decide)⟩

/-- C10: `pad_block` fails with the invalid-scheme error on every scheme
name outside the four recognized ones, and fails with the invalid-input
error on every over-long input (more than 16 bytes) under a recognized
scheme; the scheme check takes precedence. -/
theorem c10_pad_errors :
    (∀ (data : List Nat) (scheme : String), scheme ∉ PADDING_SCHEMES →
      pad_block data scheme = Except.error AesError.invalidSchemeError) ∧
    (∀ (data : List Nat) (scheme : String), scheme ∈ PADDING_SCHEMES →
      16 < data.length →
      pad_block data scheme = Except.error AesError.invalidInputError) := by
  constructor
  · intro data scheme h
    unfold pad_block
    rw [if_neg h]
  · intro data scheme hs hlen
    unfold pad_block
    rw [if_pos hs, if_neg (by omega)]

/-- Witness for C10: an unknown scheme name and a 17-byte input. -/
theorem c10_pad_errors_witness :
    "pkcs5" ∉ PADDING_SCHEMES ∧
    pad_block [1, 2] "pkcs5" = Except.error AesError.invalidSchemeError ∧
    "zero" ∈ PADDING_SCHEMES ∧
    16 < ([0, 0, 0, 0, 0, 0, 0, 0, 0, 0, 0, 0, 0, 0, 0, 0, 0] : List Nat).length ∧
    pad_block [0, 0, 0, 0, 0, 0, 0, 0, 0, 0, 0, 0, 0, 0, 0, 0, 0] "zero" =
      Except.error AesError.invalidInputError :=
  ⟨by unfold PADDING_SCHEMES; decide,
   c10_pad_errors.1 [1, 2] "pkcs5" (by unfold PADDING_SCHEMES; decide),
   by unfold PADDING_SCHEMES; decide, by decide,
   c10_pad_errors.2 [0, 0, 0, 0, 0, 0, 0, 0, 0, 0, 0, 0, 0, 0, 0, 0, 0] "zero"
     (by unfold PADDING_SCHEMES; decide) (by decide)⟩


end AesCore
